import Mathlib

/-!
The header cmake/defaults/houdini_compatibility_pch.h

A verification development for the Houdini compatibility precompiled header of
OpenDCC.  The header is eighteen lines of conditional compilation:

* line 1 / 18: the conditional group on the flag OPENDCC_HOUDINI_SUPPORT,
* line 9: the inclusion of the pxr preprocessor utilities,
* lines 11-13: the empty block of namespace hboost,
* line 14: the namespace alias boost = hboost,
* lines 15-17: three object-like definitions that send the Boost.Python
  declaration helpers to their H-named counterparts.

The header is embedded shallowly: every directive and declaration is a function
on the state of the translation unit, and the header is their composition under
the conditional of line 1.  The content of the pxr header is not part of this
repository; it is a parameter of the embedding.

Level of the model.  A translation unit is described, for the namespace scope
in which the header is included, by its table of preprocessor definitions, the
names declared in that scope (namespaces, namespace aliases, entities of
another kind), the namespace names that lookup finds in other namespaces, the
diagnostics raised so far and the list of the lines of this header that have
been carried out.  Lines 11-14 are text: their tokens go through replacement
under the definitions in force and the result is read as the two declarations
when it has their form.  Replacement is modelled for object-like definitions;
the invocation of function-like definitions is not modelled.  Inclusion at
block or class scope is not modelled.
-/

namespace OpenDCC

/-! ## Data model -/

/-- Spelling of one preprocessing token. -/
abbrev Token := String

/-- One preprocessor definition: the parameter list (absent for an object-like
definition) and the replacement list. -/
structure MacroDef where
  params : Option (List String)
  body : List Token
deriving DecidableEq, Repr

/-- An object-like definition with the given replacement list. -/
def objectLike (body : List Token) : MacroDef := ⟨none, body⟩

/-- Association list keyed by identifiers. -/
abbrev Table (β : Type) := List (String × β)

/-- The entry of a key in a table, if any. -/
def Table.find {β : Type} (k : String) : Table β → Option β
  | [] => none
  | (k1, v) :: rest => if k1 = k then some v else Table.find k rest

/-- Store a value under a key: an existing entry is replaced in place, a new
one is added at the end. -/
def Table.put {β : Type} (k : String) (v : β) : Table β → Table β
  | [] => [(k, v)]
  | (k1, v1) :: rest => if k1 = k then (k1, v) :: rest else (k1, v1) :: Table.put k v rest

/-- Diagnostics the toolchain can raise on the lines of the header: the
redefinition of a preprocessor name, a declaration that conflicts with an
earlier declaration of the same name, and a name that is used as a namespace
name without denoting one namespace. -/
inductive Diag where
  | macroRedefined (name : String)
  | namespaceConflict (name : String)
  | unknownNamespace (name : String)
deriving DecidableEq, Repr

/-- The kinds of line the header consists of, as they are recorded once carried out. -/
inductive Directive where
  | includeFile (path : String)
  | nsBlock (name : String)
  | nsAlias (name target : String)
  | defineMacro (name : String) (d : MacroDef)
deriving DecidableEq, Repr

/-- State of a translation unit at some point of its processing, seen from the
namespace scope in which the header is included.

* `macros`: the preprocessor definitions in force.
* `namespaces`: the names declared in the scope as namespaces.
* `aliases`: the names declared in the scope as namespace aliases, each with
  the namespace it denotes.
* `others`: the names declared in the scope as entities of another kind
  (variables, functions, types, templates, enumerators, using-declarations).
* `imported`: the namespace names that lookup in the scope finds in another
  namespace through a using-directive, each with the namespace it denotes.  A
  member of an inline namespace is found the same way and is held here too.
* `passedOn`: runs of tokens of the header that reached the compiler without
  having the form of the two declarations; the model does not read them.
* `diags`: the diagnostics raised so far.
* `trace`: the lines of the header carried out so far, as written. -/
structure TU where
  macros : Table MacroDef
  namespaces : List String
  aliases : Table String
  others : List String
  imported : Table String
  passedOn : List (List Token)
  diags : List Diag
  trace : List Directive
deriving DecidableEq, Repr

/-! ## Directives and declarations -/

/-- What `#ifdef name` tests: whether the name has a definition, whatever it is. -/
def isDefined (name : String) (t : TU) : Bool :=
  (Table.find name t.macros).isSome

/-- The directive `#define name ...`.  A first definition is entered in the table.
A repetition of the definition already in force is accepted silently.  A
definition that differs from the one in force raises the redefinition
diagnostic and then takes its place. -/
def define (name : String) (d : MacroDef) (t : TU) : TU :=
  let t1 := { t with trace := t.trace ++ [Directive.defineMacro name d] }
  match Table.find name t.macros with
  | none => { t1 with macros := Table.put name d t.macros }
  | some old =>
    if old = d then t1
    else { t1 with macros := Table.put name d t.macros,
                   diags := t.diags ++ [Diag.macroRedefined name] }

/-- The namespace a name denotes by its declaration in the scope: an alias
denotes its target, a declared namespace denotes itself. -/
def declaredNamespace (t : TU) (name : String) : Option String :=
  match Table.find name t.aliases with
  | some target => some target
  | none => if name ∈ t.namespaces then some name else none

/-- Name lookup of a namespace name.  Only namespace names are considered.  A
name found both in the scope and in another namespace denotes a namespace only
when the two are the same one; otherwise the reference is ambiguous. -/
def resolveNamespace (t : TU) (name : String) : Option String :=
  match declaredNamespace t name, Table.find name t.imported with
  | some d, some i => if d = i then some d else none
  | some d, none => some d
  | none, some i => some i
  | none, none => none

/-- Lookup of the qualified name `ns::x`: the namespace the qualifier denotes,
together with the member name. -/
def lookupQualified (t : TU) (ns x : String) : Option (String × String) :=
  (resolveNamespace t ns).map (fun n => (n, x))

/-- The declaration `namespace name { }`.  It declares the namespace when the name
is new in the scope and re-opens it when it is already a namespace there; a
name that is an alias or an entity of another kind is rejected.  A name that is
only found in another namespace is new in the scope.  (For a member of an
inline namespace the compiler re-opens that member instead; the model does not
tell the two apart and declares a new namespace.) -/
def namespaceBlock (name : String) (t : TU) : TU :=
  if (Table.find name t.aliases).isSome = true ∨ name ∈ t.others then
    { t with diags := t.diags ++ [Diag.namespaceConflict name] }
  else if name ∈ t.namespaces then t
  else { t with namespaces := t.namespaces ++ [name] }

/-- The declaration `namespace name = target;`.  The target has to denote a
namespace.  The name may be new in the scope, or an alias that already denotes
the same namespace, or that namespace itself; a name that is an entity of
another kind, another namespace, or an alias of another namespace, is
rejected.  A rejected declaration leaves the tables as they were. -/
def namespaceAlias (name target : String) (t : TU) : TU :=
  match resolveNamespace t target with
  | none => { t with diags := t.diags ++ [Diag.unknownNamespace target] }
  | some ns =>
    if name ∈ t.others then
      { t with diags := t.diags ++ [Diag.namespaceConflict name] }
    else if name ∈ t.namespaces then
      if ns = name then t
      else { t with diags := t.diags ++ [Diag.namespaceConflict name] }
    else
      match Table.find name t.aliases with
      | none => { t with aliases := t.aliases ++ [(name, ns)] }
      | some cur =>
        if cur = ns then t
        else { t with diags := t.diags ++ [Diag.namespaceConflict name] }

/-- The directive `#include <path>`: the content of the included file is processed
at this point, and the directive is recorded.  The content is a parameter; the
record keeps the lines of the header under study only, not those of the
included file. -/
def includeHeader (path : String) (content : TU → TU) (t : TU) : TU :=
  { content t with trace := t.trace ++ [Directive.includeFile path] }

/-! ## Expansion of object-like definitions -/

/-- Replacement of one token without rescanning: the replacement list of an
object-like definition, the token itself otherwise. -/
def rewriteOnce (tbl : Table MacroDef) (tok : Token) : List Token :=
  match Table.find tok tbl with
  | some ⟨none, body⟩ => body
  | _ => [tok]

/-- Full replacement of one token with rescanning.  A name being replaced is
hidden while its replacement list is rescanned.  Names of function-like
definitions are left in place (their invocation is not modelled). -/
def expandToken (tbl : Table MacroDef) : Nat → List String → Token → List Token
  | 0, _, tok => [tok]
  | fuel + 1, hidden, tok =>
    if tok ∈ hidden then [tok]
    else
      match Table.find tok tbl with
      | some ⟨none, body⟩ => body.flatMap (fun b => expandToken tbl fuel (tok :: hidden) b)
      | _ => [tok]

/-- Expansion of a token sequence with a given amount of rescanning depth. -/
def expandFuel (tbl : Table MacroDef) (fuel : Nat) (ts : List Token) : List Token :=
  ts.flatMap (expandToken tbl fuel [])

/-- Expansion of a token sequence under a table.  Every level of rescanning
hides one more name of the table, so the size of the table bounds the depth. -/
def expand (tbl : Table MacroDef) (ts : List Token) : List Token :=
  expandFuel tbl (tbl.length + 1) ts

/-! ## Lines 11 to 14 as text -/

/-- The keywords of the language, which cannot name a namespace. -/
def keywords : List String :=
  ["alignas", "alignof", "and", "and_eq", "asm", "auto", "bitand", "bitor", "bool", "break",
   "case", "catch", "char", "char8_t", "char16_t", "char32_t", "class", "compl", "concept",
   "const", "consteval", "constexpr", "constinit", "const_cast", "continue", "co_await",
   "co_return", "co_yield", "decltype", "default", "delete", "do", "double", "dynamic_cast",
   "else", "enum", "explicit", "export", "extern", "false", "float", "for", "friend", "goto",
   "if", "inline", "int", "long", "mutable", "namespace", "new", "noexcept", "not", "not_eq",
   "nullptr", "operator", "or", "or_eq", "private", "protected", "public", "register",
   "reinterpret_cast", "requires", "return", "short", "signed", "sizeof", "static",
   "static_assert", "static_cast", "struct", "switch", "template", "this", "thread_local",
   "throw", "true", "try", "typedef", "typeid", "typename", "union", "unsigned", "using",
   "virtual", "void", "volatile", "wchar_t", "while", "xor", "xor_eq"]

/-- Whether a token has the spelling of an identifier. -/
def isIdentifier (s : Token) : Bool :=
  match s.toList with
  | [] => false
  | c :: cs => (c.isAlpha || c == '_') && cs.all (fun x => x.isAlphanum || x == '_')

/-- Whether a token can name a namespace: an identifier that is not a keyword. -/
def isName (s : Token) : Bool :=
  isIdentifier s && !keywords.contains s

/-- The tokens of lines 11 to 14, as written. -/
def declarationTokens : List Token :=
  ["namespace", "hboost", "\x7b", "\x7d", "namespace", "boost", "=", "hboost", ";"]

/-- Reading of a run of tokens as an empty namespace block followed by a
namespace alias: the name of the block, the name of the alias and its target.
Any other run is not read. -/
def parseDeclarations : List Token → Option (String × String × String)
  | [k1, n, lb, rb, k2, a, eq, b, semi] =>
    if k1 = "namespace" ∧ lb = "\x7b" ∧ rb = "\x7d" ∧ k2 = "namespace" ∧ eq = "=" ∧ semi = ";"
        ∧ isName n = true ∧ isName a = true ∧ isName b = true then
      some (n, a, b)
    else none
  | _ => none

/-- Lines 11 to 14.  No directive stands between them, so their tokens are
replaced under one table.  When the result has the form of the two
declarations, these are made, the block first; otherwise the tokens are passed
on unread.  The form that is read contains no parenthesis, so no function-like
definition is invoked in it.  The record keeps the two lines as written. -/
def declarations (t : TU) : TU :=
  let t1 := { t with
    trace := t.trace ++ [Directive.nsBlock "hboost", Directive.nsAlias "boost" "hboost"] }
  match parseDeclarations (expand t.macros declarationTokens) with
  | some (n, a, b) => t1 |> namespaceBlock n |> namespaceAlias a b
  | none => { t1 with passedOn := t.passedOn ++ [expand t.macros declarationTokens] }

/-! ## The header -/

/-- The feature flag tested on line 1. -/
def OPENDCC_HOUDINI_SUPPORT : String := "OPENDCC_HOUDINI_SUPPORT"

/-- Line 9: the pxr preprocessor utilities are included. -/
def shimInclude (pxr : TU → TU) (t : TU) : TU :=
  includeHeader "pxr/base/tf/preprocessorUtilsLite.h" pxr t

/-- Lines 11 to 17: the namespace block and the alias, then the three definitions. -/
def shimDecls (t : TU) : TU :=
  t |> declarations
    |> define "BOOST_PYTHON_MODULE" (objectLike ["HBOOST_PYTHON_MODULE"])
    |> define "BOOST_PYTHON_FUNCTION_OVERLOADS" (objectLike ["HBOOST_PYTHON_FUNCTION_OVERLOADS"])
    |> define "BOOST_PYTHON_MEMBER_FUNCTION_OVERLOADS"
         (objectLike ["HBOOST_PYTHON_MEMBER_FUNCTION_OVERLOADS"])

/-- Lines 9 to 17, the group controlled by the conditional. -/
def shimBody (pxr : TU → TU) (t : TU) : TU :=
  shimDecls (shimInclude pxr t)

/-- The whole header: `#ifdef OPENDCC_HOUDINI_SUPPORT` ... `#endif`.  The first
argument is the content of pxr/base/tf/preprocessorUtilsLite.h. -/
def houdini_compatibility_pch (pxr : TU → TU) (t : TU) : TU :=
  if isDefined OPENDCC_HOUDINI_SUPPORT t then shimBody pxr t else t

/-! ## Sample units and derived tables -/

/-- A translation unit in which nothing but the feature flag is defined. -/
def flagOnly : TU :=
  { macros := [(OPENDCC_HOUDINI_SUPPORT, objectLike [])], namespaces := [], aliases := [],
    others := [], imported := [], passedOn := [], diags := [], trace := [] }

/-- The definitions the header itself makes: its table on a unit that has only
the flag, the flag left out. -/
def shimMacros : Table MacroDef :=
  (houdini_compatibility_pch id flagOnly).macros.filter (fun e => e.1 ≠ OPENDCC_HOUDINI_SUPPORT)

/-- The three names the header defines. -/
def sourceNames : List String := shimMacros.map (fun e => e.1)

/-- The names the three definitions expand to. -/
def targetNames : List String := shimMacros.flatMap (fun e => e.2.body)

/-- The call site `name(args)` as a token sequence. -/
def callSite (name : Token) (args : List Token) : List Token :=
  name :: "(" :: args ++ [")"]

/-- The unit with the definition of the feature flag set to the given one. -/
def setFlag (d : MacroDef) (t : TU) : TU :=
  { t with macros := Table.put OPENDCC_HOUDINI_SUPPORT d t.macros }

/-- Whether lines 11 to 14 reach the compiler as written: none of their tokens
has a preprocessor definition in force. -/
def unreplaced (t : TU) : Bool :=
  declarationTokens.all (fun tok => !isDefined tok t)

/-- A sample content for the included pxr header: a guarded file that defines one
helper.  It serves as a concrete instance of the parameter. -/
def guardedUtilityHeader (t : TU) : TU :=
  if isDefined "PXR_BASE_TF_PREPROCESSOR_UTILS_LITE_H" t then t
  else
    t |> define "PXR_BASE_TF_PREPROCESSOR_UTILS_LITE_H" (objectLike [])
      |> define "TF_PP_CAT" ⟨some ["x", "y"], ["TF_PP_CAT_IMPL", "(", "x", ",", "y", ")"]⟩

/-- A unit that already declares a namespace boost of its own. -/
def withRealBoost : TU :=
  { flagOnly with namespaces := ["boost"] }

/-- A unit that declares a variable named hboost. -/
def withHboostVariable : TU :=
  { flagOnly with others := ["hboost"] }

/-- A unit in which hboost is an object-like definition for the name vendor. -/
def withHboostDefined : TU :=
  { flagOnly with
    macros := [(OPENDCC_HOUDINI_SUPPORT, objectLike []), ("hboost", objectLike ["vendor"])] }

/-- A unit in which hboost is an object-like definition for BOOST_PYTHON_MODULE. -/
def hboostToModule : TU :=
  { flagOnly with
    macros := [(OPENDCC_HOUDINI_SUPPORT, objectLike []),
               ("hboost", objectLike ["BOOST_PYTHON_MODULE"])] }

/-- A unit without the flag in which hboost is an object-like definition for the
flag itself. -/
def hboostToFlag : TU :=
  { flagOnly with macros := [("hboost", objectLike [OPENDCC_HOUDINI_SUPPORT])] }

/-- A unit without the feature flag, in which some other definition is in force. -/
def plainUnit : TU :=
  { macros := [("NDEBUG", objectLike [])], namespaces := ["std"], aliases := [],
    others := [], imported := [], passedOn := [], diags := [], trace := [] }

/-- A unit with the flag in which BOOST_PYTHON_MODULE is already function-like. -/
def withBoostPython : TU :=
  { flagOnly with
    macros := [(OPENDCC_HOUDINI_SUPPORT, objectLike ["1"]),
               ("BOOST_PYTHON_MODULE", ⟨some ["name"], ["void", "init", "(", ")"]⟩)] }

/-- The diagnostic a `#define name` raises against a table: the redefinition
diagnostic when the name has a different definition in force, none otherwise. -/
def redefinitionDiag (name : String) (d : MacroDef) (tbl : Table MacroDef) : List Diag :=
  match Table.find name tbl with
  | some old => if old = d then [] else [Diag.macroRedefined name]
  | none => []

/-- What lines 11 to 17 leave behind when lines 11 to 14 are not replaced: hboost
and boost are declared in the scope, or the alias has no namespace to denote,
and the three definitions are in force. -/
structure Settled (t : TU) : Prop where
  hboost : (Table.find "hboost" t.aliases).isSome = true ∨ "hboost" ∈ t.others ∨
    "hboost" ∈ t.namespaces
  boost : resolveNamespace t "hboost" = none ∨ "boost" ∈ t.others ∨ "boost" ∈ t.namespaces ∨
    (Table.find "boost" t.aliases).isSome = true
  m1 : Table.find "BOOST_PYTHON_MODULE" t.macros = some (objectLike ["HBOOST_PYTHON_MODULE"])
  m2 : Table.find "BOOST_PYTHON_FUNCTION_OVERLOADS" t.macros
        = some (objectLike ["HBOOST_PYTHON_FUNCTION_OVERLOADS"])
  m3 : Table.find "BOOST_PYTHON_MEMBER_FUNCTION_OVERLOADS" t.macros
        = some (objectLike ["HBOOST_PYTHON_MEMBER_FUNCTION_OVERLOADS"])

/-- A unit that declares a type named boost. -/
def withBoostType : TU :=
  { flagOnly with others := ["boost"] }

/-- A unit in which a using-directive makes a namespace hboost of another
namespace visible. -/
def withImportedHboost : TU :=
  { flagOnly with imported := [("hboost", "v::hboost")] }

/-- The names of a table that are not hidden. -/
def visibleNames (tbl : Table MacroDef) (hidden : List String) : List String :=
  (tbl.map (fun e => e.1)).dedup.filter (fun k => decide (k ∉ hidden))

/-! ## Tables -/

theorem Table.find_put_self {β : Type} (k : String) (v : β) (t : Table β) :
    Table.find k (Table.put k v t) = some v := by
  induction t with
  | nil => simp [Table.put, Table.find]
  | cons e rest ih =>
    obtain ⟨k1, v1⟩ := e
    by_cases h : k1 = k
    · simp [Table.put, Table.find, h]
    · simp [Table.put, Table.find, h, ih]

theorem Table.find_put_ne {β : Type} {k k2 : String} (v : β) (t : Table β) (h : k ≠ k2) :
    Table.find k2 (Table.put k v t) = Table.find k2 t := by
  induction t with
  | nil => simp [Table.put, Table.find, h]
  | cons e rest ih =>
    obtain ⟨k1, v1⟩ := e
    by_cases h1 : k1 = k
    · subst h1
      simp [Table.put, Table.find, h]
    · by_cases h2 : k1 = k2
      · subst h2
        simp [Table.put, Table.find, h1]
      · simp [Table.put, Table.find, h1, h2, ih]

theorem Table.put_eq_self {β : Type} {k : String} {v : β} {t : Table β}
    (h : Table.find k t = some v) : Table.put k v t = t := by
  induction t with
  | nil => simp [Table.find] at h
  | cons e rest ih =>
    obtain ⟨k1, v1⟩ := e
    by_cases h1 : k1 = k
    · simp [Table.find, h1] at h
      simp [Table.put, h1, h]
    · simp [Table.find, h1] at h
      simp [Table.put, h1, ih h]

theorem Table.put_comm {β : Type} {k1 k2 : String} (v1 v2 : β) {t : Table β}
    (hne : k1 ≠ k2) (hin : (Table.find k1 t).isSome = true) :
    Table.put k2 v2 (Table.put k1 v1 t) = Table.put k1 v1 (Table.put k2 v2 t) := by
  induction t with
  | nil => simp [Table.find] at hin
  | cons e rest ih =>
    obtain ⟨a, x⟩ := e
    by_cases ha1 : a = k1
    · subst ha1
      simp [Table.put, hne]
    · by_cases ha2 : a = k2
      · subst ha2
        simp [Table.put, ha1]
      · simp [Table.find, ha1] at hin
        simp [Table.put, ha1, ha2, ih hin]

theorem Table.find_append_some {β : Type} (k : String) (v : β) (t u : Table β)
    (h : Table.find k t = some v) : Table.find k (t ++ u) = some v := by
  induction t with
  | nil => simp [Table.find] at h
  | cons e rest ih =>
    obtain ⟨k1, v1⟩ := e
    by_cases h1 : k1 = k
    · simpa [Table.find, h1] using h
    · simp [Table.find, h1] at h
      simp [Table.find, h1, ih h]

theorem Table.find_append_none {β : Type} (k : String) (t u : Table β)
    (h : Table.find k t = none) : Table.find k (t ++ u) = Table.find k u := by
  induction t with
  | nil => rfl
  | cons e rest ih =>
    obtain ⟨k1, v1⟩ := e
    by_cases h1 : k1 = k
    · simp [Table.find, h1] at h
    · simp [Table.find, h1] at h
      simp [Table.find, h1, ih h]

/-! ## The directive `#define` -/

theorem define_namespaces (n : String) (d : MacroDef) (t : TU) :
    (define n d t).namespaces = t.namespaces := by
  unfold define
  cases h : Table.find n t.macros with
  | none => rfl
  | some old => by_cases hd : old = d <;> simp [hd]

theorem define_aliases (n : String) (d : MacroDef) (t : TU) :
    (define n d t).aliases = t.aliases := by
  unfold define
  cases h : Table.find n t.macros with
  | none => rfl
  | some old => by_cases hd : old = d <;> simp [hd]

theorem define_trace (n : String) (d : MacroDef) (t : TU) :
    (define n d t).trace = t.trace ++ [Directive.defineMacro n d] := by
  unfold define
  cases h : Table.find n t.macros with
  | none => rfl
  | some old => by_cases hd : old = d <;> simp [hd]

theorem define_find_self (n : String) (d : MacroDef) (t : TU) :
    Table.find n (define n d t).macros = some d := by
  unfold define
  cases h : Table.find n t.macros with
  | none => simp [Table.find_put_self]
  | some old =>
    by_cases hd : old = d
    · subst hd
      simp [h]
    · simp [hd, Table.find_put_self]

theorem define_find_ne {n m : String} (d : MacroDef) (t : TU) (hne : n ≠ m) :
    Table.find m (define n d t).macros = Table.find m t.macros := by
  unfold define
  cases h : Table.find n t.macros with
  | none => simp [Table.find_put_ne _ _ hne]
  | some old => by_cases hd : old = d <;> simp [hd, Table.find_put_ne _ _ hne]

/-- The definition already in force, repeated: only the record of the line is added. -/
theorem define_same {n : String} {d : MacroDef} {t : TU} (h : Table.find n t.macros = some d) :
    define n d t = { t with trace := t.trace ++ [Directive.defineMacro n d] } := by
  unfold define
  simp [h]

/-- A definition that differs from the one in force: diagnostic and replacement. -/
theorem define_differs {n : String} {d old : MacroDef} {t : TU}
    (h : Table.find n t.macros = some old) (hne : old ≠ d) :
    (define n d t).diags = t.diags ++ [Diag.macroRedefined n] := by
  unfold define
  simp [h, hne]

/-- A `#define` adds nothing to the diagnostics, or the redefinition of its own name. -/
theorem define_diags (n : String) (d : MacroDef) (t : TU) :
    (define n d t).diags = t.diags ∨ (define n d t).diags = t.diags ++ [Diag.macroRedefined n] := by
  unfold define
  cases h : Table.find n t.macros with
  | none => left; rfl
  | some old => by_cases hd : old = d <;> simp [hd]

/-- A `#define` never removes a definition. -/
theorem define_isDefined {m : String} (n : String) (d : MacroDef) (t : TU)
    (h : isDefined m t = true) : isDefined m (define n d t) = true := by
  unfold isDefined at *
  by_cases hnm : n = m
  · subst hnm
    simp [define_find_self]
  · rw [define_find_ne d t hnm]
    exact h

theorem define_others (n : String) (d : MacroDef) (t : TU) :
    (define n d t).others = t.others := by
  unfold define
  cases h : Table.find n t.macros with
  | none => rfl
  | some old => by_cases hd : old = d <;> simp [hd]

theorem define_imported (n : String) (d : MacroDef) (t : TU) :
    (define n d t).imported = t.imported := by
  unfold define
  cases h : Table.find n t.macros with
  | none => rfl
  | some old => by_cases hd : old = d <;> simp [hd]

theorem define_diags_eq (n : String) (d : MacroDef) (t : TU) :
    (define n d t).diags = t.diags ++ redefinitionDiag n d t.macros := by
  unfold define redefinitionDiag
  cases h : Table.find n t.macros with
  | none => simp
  | some old => by_cases hd : old = d <;> simp [hd]

theorem redefinitionDiag_mem {n : String} {x : MacroDef} {tbl : Table MacroDef} {d : Diag}
    (h : d ∈ redefinitionDiag n x tbl) : d = Diag.macroRedefined n := by
  unfold redefinitionDiag at h
  cases hf : Table.find n tbl with
  | none => simp [hf] at h
  | some old =>
    by_cases ho : old = x
    · simp [hf, ho] at h
    · simpa [hf, ho] using h

/-! ## The namespace declarations -/

theorem namespaceBlock_cases (n : String) (t : TU) :
    namespaceBlock n t = { t with diags := t.diags ++ [Diag.namespaceConflict n] } ∨
    namespaceBlock n t = t ∨
    (namespaceBlock n t = { t with namespaces := t.namespaces ++ [n] } ∧
      Table.find n t.aliases = none ∧ n ∉ t.others ∧ n ∉ t.namespaces) := by
  unfold namespaceBlock
  by_cases h1 : (Table.find n t.aliases).isSome = true ∨ n ∈ t.others
  · left; simp [h1]
  · by_cases h2 : n ∈ t.namespaces
    · right; left; simp [h1, h2]
    · right; right
      rw [if_neg h1, if_neg h2]
      simp only [not_or] at h1
      refine ⟨rfl, ?_, h1.2, h2⟩
      cases hf : Table.find n t.aliases with
      | none => rfl
      | some v => simp [hf] at h1

theorem namespaceBlock_macros (n : String) (t : TU) : (namespaceBlock n t).macros = t.macros := by
  rcases namespaceBlock_cases n t with h | h | ⟨h, _⟩ <;> rw [h]

theorem namespaceBlock_aliases (n : String) (t : TU) :
    (namespaceBlock n t).aliases = t.aliases := by
  rcases namespaceBlock_cases n t with h | h | ⟨h, _⟩ <;> rw [h]

theorem namespaceBlock_others (n : String) (t : TU) :
    (namespaceBlock n t).others = t.others := by
  rcases namespaceBlock_cases n t with h | h | ⟨h, _⟩ <;> rw [h]

theorem namespaceBlock_imported (n : String) (t : TU) :
    (namespaceBlock n t).imported = t.imported := by
  rcases namespaceBlock_cases n t with h | h | ⟨h, _⟩ <;> rw [h]

theorem namespaceBlock_trace (n : String) (t : TU) :
    (namespaceBlock n t).trace = t.trace := by
  rcases namespaceBlock_cases n t with h | h | ⟨h, _⟩ <;> rw [h]

theorem namespaceBlock_diags (n : String) (t : TU) :
    ∃ extra, (namespaceBlock n t).diags = t.diags ++ extra ∧
      ∀ d ∈ extra, d = Diag.namespaceConflict n := by
  rcases namespaceBlock_cases n t with h | h | ⟨h, _⟩
  · exact ⟨[Diag.namespaceConflict n], by rw [h], by simp⟩
  · exact ⟨[], by rw [h]; simp, by simp⟩
  · exact ⟨[], by rw [h]; simp, by simp⟩

/-- After the block, the name is declared in the scope in one way or another. -/
theorem namespaceBlock_declared (n : String) (t : TU) :
    (Table.find n (namespaceBlock n t).aliases).isSome = true ∨ n ∈ (namespaceBlock n t).others ∨
      n ∈ (namespaceBlock n t).namespaces := by
  unfold namespaceBlock
  by_cases h1 : (Table.find n t.aliases).isSome = true ∨ n ∈ t.others
  · rw [if_pos h1]
    rcases h1 with h | h
    · left; exact h
    · right; left; exact h
  · by_cases h2 : n ∈ t.namespaces
    · right; right; simp [h1, h2]
    · right; right; simp [h1, h2]

theorem namespaceBlock_namespaces_of_declared {n : String} {t : TU}
    (h : (Table.find n t.aliases).isSome = true ∨ n ∈ t.others ∨ n ∈ t.namespaces) :
    (namespaceBlock n t).namespaces = t.namespaces := by
  rcases namespaceBlock_cases n t with h1 | h1 | ⟨h1, ha, ho, hn⟩
  · rw [h1]
  · rw [h1]
  · rcases h with h | h | h
    · simp [ha] at h
    · exact absurd h ho
    · exact absurd h hn

theorem namespaceAlias_cases (a b : String) (t : TU) :
    (namespaceAlias a b t = { t with diags := t.diags ++ [Diag.unknownNamespace b] } ∧
      resolveNamespace t b = none) ∨
    namespaceAlias a b t = { t with diags := t.diags ++ [Diag.namespaceConflict a] } ∨
    namespaceAlias a b t = t ∨
    (∃ ns, namespaceAlias a b t = { t with aliases := t.aliases ++ [(a, ns)] } ∧
      resolveNamespace t b = some ns ∧ a ∉ t.others ∧ a ∉ t.namespaces ∧
      Table.find a t.aliases = none) := by
  unfold namespaceAlias
  cases hres : resolveNamespace t b with
  | none => left; exact ⟨rfl, rfl⟩
  | some ns =>
    right
    by_cases ho : a ∈ t.others
    · left; simp [ho]
    · by_cases hn : a ∈ t.namespaces
      · by_cases he : ns = a
        · right; left; simp [ho, hn, he]
        · left; simp [ho, hn, he]
      · cases hal : Table.find a t.aliases with
        | none => right; right; exact ⟨ns, by simp [ho, hn], rfl, ho, hn, rfl⟩
        | some cur =>
          by_cases hc : cur = ns
          · right; left; simp [ho, hn, hc]
          · left; simp [ho, hn, hc]

theorem namespaceAlias_macros (a b : String) (t : TU) :
    (namespaceAlias a b t).macros = t.macros := by
  rcases namespaceAlias_cases a b t with ⟨h, _⟩ | h | h | ⟨ns, h, _⟩ <;> rw [h]

theorem namespaceAlias_namespaces (a b : String) (t : TU) :
    (namespaceAlias a b t).namespaces = t.namespaces := by
  rcases namespaceAlias_cases a b t with ⟨h, _⟩ | h | h | ⟨ns, h, _⟩ <;> rw [h]

theorem namespaceAlias_others (a b : String) (t : TU) :
    (namespaceAlias a b t).others = t.others := by
  rcases namespaceAlias_cases a b t with ⟨h, _⟩ | h | h | ⟨ns, h, _⟩ <;> rw [h]

theorem namespaceAlias_imported (a b : String) (t : TU) :
    (namespaceAlias a b t).imported = t.imported := by
  rcases namespaceAlias_cases a b t with ⟨h, _⟩ | h | h | ⟨ns, h, _⟩ <;> rw [h]

theorem namespaceAlias_trace (a b : String) (t : TU) :
    (namespaceAlias a b t).trace = t.trace := by
  rcases namespaceAlias_cases a b t with ⟨h, _⟩ | h | h | ⟨ns, h, _⟩ <;> rw [h]

theorem namespaceAlias_diags (a b : String) (t : TU) :
    ∃ extra, (namespaceAlias a b t).diags = t.diags ++ extra ∧
      ∀ d ∈ extra, d = Diag.namespaceConflict a ∨
        (d = Diag.unknownNamespace b ∧ resolveNamespace t b = none) := by
  rcases namespaceAlias_cases a b t with ⟨h, hr⟩ | h | h | ⟨ns, h, _⟩
  · exact ⟨[Diag.unknownNamespace b], by rw [h], by simp [hr]⟩
  · exact ⟨[Diag.namespaceConflict a], by rw [h], by simp⟩
  · exact ⟨[], by rw [h]; simp, by simp⟩
  · exact ⟨[], by rw [h]; simp, by simp⟩

/-- The alias leaves every alias already declared in place. -/
theorem namespaceAlias_keeps_alias (a b n : String) (t : TU)
    (h : (Table.find n t.aliases).isSome = true) :
    (Table.find n (namespaceAlias a b t).aliases).isSome = true := by
  obtain ⟨v, hv⟩ := Option.isSome_iff_exists.mp h
  rcases namespaceAlias_cases a b t with ⟨h1, _⟩ | h1 | h1 | ⟨ns, h1, _⟩
  · rw [h1]; exact h
  · rw [h1]; exact h
  · rw [h1]; exact h
  · rw [h1]
    simp [Table.find_append_some _ _ _ _ hv]

/-- A name on which the alias declaration cannot add anything: the target
denotes no namespace, or the name is already declared in the scope. -/
theorem namespaceAlias_aliases_of_declared {a b : String} {t : TU}
    (h : resolveNamespace t b = none ∨ a ∈ t.others ∨ a ∈ t.namespaces ∨
      (Table.find a t.aliases).isSome = true) :
    (namespaceAlias a b t).aliases = t.aliases := by
  rcases namespaceAlias_cases a b t with ⟨h1, _⟩ | h1 | h1 | ⟨ns, h1, hr, ho, hn, hal⟩
  · rw [h1]
  · rw [h1]
  · rw [h1]
  · rcases h with h | h | h | h
    · rw [hr] at h; simp at h
    · exact absurd h ho
    · exact absurd h hn
    · simp [hal] at h

/-- Lookup of a namespace name reads the declarations of the scope and the
imported names only. -/
theorem resolveNamespace_congr {t u : TU} (hn : t.namespaces = u.namespaces)
    (ha : t.aliases = u.aliases) (hi : t.imported = u.imported) (n : String) :
    resolveNamespace t n = resolveNamespace u n := by
  unfold resolveNamespace declaredNamespace
  rw [hn, ha, hi]

/-- After the alias declaration one of its no-effect conditions holds. -/
theorem namespaceAlias_declared (a b : String) (t : TU) :
    resolveNamespace (namespaceAlias a b t) b = none ∨ a ∈ (namespaceAlias a b t).others ∨
      a ∈ (namespaceAlias a b t).namespaces ∨
      (Table.find a (namespaceAlias a b t).aliases).isSome = true := by
  rcases namespaceAlias_cases a b t with ⟨h1, hr⟩ | h1 | h1 | ⟨ns, h1, hr, ho, hn, hal⟩
  · left; rw [h1]; exact hr
  · -- rejected for a conflict: the name was declared already
    have : namespaceAlias a b t = { t with diags := t.diags ++ [Diag.namespaceConflict a] } := h1
    rw [this]
    unfold namespaceAlias at h1
    cases hres : resolveNamespace t b with
    | none =>
      rw [hres] at h1
      have := congrArg TU.diags h1
      simp at this
    | some ns =>
      by_cases ho : a ∈ t.others
      · right; left; exact ho
      · by_cases hn : a ∈ t.namespaces
        · right; right; left; exact hn
        · cases hal : Table.find a t.aliases with
          | none =>
            rw [hres] at h1
            simp only [ho, hn, hal, if_false] at h1
            have := congrArg TU.diags h1
            simp at this
          | some cur => right; right; right; simp [hal]
  · -- accepted without effect
    rw [h1]
    unfold namespaceAlias at h1
    cases hres : resolveNamespace t b with
    | none =>
      rw [hres] at h1
      have := congrArg TU.diags h1
      simp at this
    | some ns =>
      by_cases ho : a ∈ t.others
      · right; left; exact ho
      · by_cases hn : a ∈ t.namespaces
        · right; right; left; exact hn
        · cases hal : Table.find a t.aliases with
          | none =>
            rw [hres] at h1
            simp only [ho, hn, hal, if_false] at h1
            have := congrArg TU.aliases h1
            simp at this
          | some cur => right; right; right; simp [hal]
  · right; right; right
    rw [h1]
    simp only []
    rw [Table.find_append_none _ _ _ hal]
    simp [Table.find]

/-! ## Depth of rescanning -/

theorem Table.mem_keys_of_find {β : Type} {k : String} {v : β} {t : Table β}
    (h : Table.find k t = some v) : k ∈ t.map (fun e => e.1) := by
  induction t with
  | nil => simp [Table.find] at h
  | cons e rest ih =>
    obtain ⟨k1, v1⟩ := e
    by_cases h1 : k1 = k
    · simp [h1]
    · simp [Table.find, h1] at h
      simp [ih h]

theorem visibleNames_lt (tbl : Table MacroDef) (hidden : List String) (tok : String)
    (d : MacroDef) (hf : Table.find tok tbl = some d) (hh : tok ∉ hidden) :
    (visibleNames tbl (tok :: hidden)).length < (visibleNames tbl hidden).length := by
  have hmem : tok ∈ visibleNames tbl hidden := by
    unfold visibleNames
    simp [List.mem_filter, Table.mem_keys_of_find hf, hh]
  have heq : visibleNames tbl (tok :: hidden)
      = (visibleNames tbl hidden).filter (fun k => decide (k ≠ tok)) := by
    unfold visibleNames
    rw [List.filter_filter]
    apply List.filter_congr
    intro k _
    simp [not_or, and_comm]
  rw [heq]
  apply List.length_filter_lt_length_iff_exists.mpr
  exact ⟨tok, hmem, by simp⟩

theorem expandToken_fuel (tbl : Table MacroDef) (f1 : Nat) :
    ∀ (f2 : Nat) (hidden : List String) (tok : Token),
      (visibleNames tbl hidden).length < f1 → (visibleNames tbl hidden).length < f2 →
      expandToken tbl f1 hidden tok = expandToken tbl f2 hidden tok := by
  induction f1 with
  | zero => intro f2 hidden tok h1 _; exact absurd h1 (Nat.not_lt_zero _)
  | succ n ih =>
    intro f2 hidden tok h1 h2
    cases f2 with
    | zero => exact absurd h2 (Nat.not_lt_zero _)
    | succ k =>
      unfold expandToken
      by_cases hh : tok ∈ hidden
      · simp [hh]
      · simp only [hh, if_false]
        cases hf : Table.find tok tbl with
        | none => rfl
        | some d =>
          obtain ⟨params, body⟩ := d
          cases params with
          | some ps => rfl
          | none =>
            have hlt := visibleNames_lt tbl hidden tok _ hf hh
            simp only []
            congr 1
            funext b
            exact ih k (tok :: hidden) b (by omega) (by omega)

theorem visibleNames_le (tbl : Table MacroDef) : (visibleNames tbl []).length ≤ tbl.length := by
  unfold visibleNames
  calc ((tbl.map (fun e => e.1)).dedup.filter (fun k => decide (k ∉ ([] : List String)))).length
      ≤ (tbl.map (fun e => e.1)).dedup.length := List.length_filter_le _ _
    _ ≤ (tbl.map (fun e => e.1)).length := (List.dedup_sublist _).length_le
    _ = tbl.length := List.length_map _ _

/-- The depth that `expand` allows is enough: any larger depth gives the same
expansion, so no replacement is cut short. -/
theorem expandFuel_eq_expand (tbl : Table MacroDef) (fuel : Nat) (h : tbl.length < fuel)
    (ts : List Token) : expandFuel tbl fuel ts = expand tbl ts := by
  unfold expand expandFuel
  congr 1
  funext tok
  have hle := visibleNames_le tbl
  exact expandToken_fuel tbl fuel (tbl.length + 1) [] tok (by omega) (by omega)

/-! ## Lines 11 to 14 -/

/-- Tokens without a definition in force are left alone by expansion. -/
theorem expand_of_undefined (tbl : Table MacroDef) (ts : List Token)
    (h : ∀ tok ∈ ts, Table.find tok tbl = none) : expand tbl ts = ts := by
  unfold expand expandFuel
  induction ts with
  | nil => rfl
  | cons a rest ih =>
    have ha : Table.find a tbl = none := h a (List.mem_cons_self _ _)
    have hrest := ih (fun tok htok => h tok (List.mem_cons_of_mem _ htok))
    rw [List.flatMap_cons, hrest]
    simp [expandToken, ha]

theorem unreplaced_iff (t : TU) :
    unreplaced t = true ↔ ∀ tok ∈ declarationTokens, Table.find tok t.macros = none := by
  unfold unreplaced isDefined
  rw [List.all_eq_true]
  constructor
  · intro h tok htok
    have := h tok htok
    cases hf : Table.find tok t.macros with
    | none => rfl
    | some v => simp [hf] at this
  · intro h tok htok
    simp [h tok htok]

/-- Whether the lines are replaced depends on the table of definitions only. -/
theorem unreplaced_congr {t u : TU}
    (h : ∀ tok ∈ declarationTokens, Table.find tok t.macros = Table.find tok u.macros) :
    unreplaced t = unreplaced u := by
  rw [Bool.eq_iff_iff, unreplaced_iff, unreplaced_iff]
  constructor
  · intro hh tok htok
    rw [← h tok htok]
    exact hh tok htok
  · intro hh tok htok
    rw [h tok htok]
    exact hh tok htok

theorem parseDeclarations_written :
    parseDeclarations declarationTokens = some ("hboost", "boost", "hboost") := by
  decide

/-- When none of their tokens has a definition in force, lines 11 to 14 are the
block of hboost followed by the alias of boost. -/
theorem declarations_unreplaced (t : TU) (h : unreplaced t = true) :
    declarations t = namespaceAlias "boost" "hboost" (namespaceBlock "hboost"
      { t with trace := t.trace
          ++ [Directive.nsBlock "hboost", Directive.nsAlias "boost" "hboost"] }) := by
  unfold declarations
  rw [expand_of_undefined _ _ ((unreplaced_iff t).mp h), parseDeclarations_written]

theorem declarations_macros (t : TU) : (declarations t).macros = t.macros := by
  unfold declarations
  cases parseDeclarations (expand t.macros declarationTokens) with
  | none => rfl
  | some r =>
    obtain ⟨n, a, b⟩ := r
    simp only []
    rw [namespaceAlias_macros, namespaceBlock_macros]

theorem declarations_others (t : TU) : (declarations t).others = t.others := by
  unfold declarations
  cases parseDeclarations (expand t.macros declarationTokens) with
  | none => rfl
  | some r =>
    obtain ⟨n, a, b⟩ := r
    simp only []
    rw [namespaceAlias_others, namespaceBlock_others]

theorem declarations_imported (t : TU) : (declarations t).imported = t.imported := by
  unfold declarations
  cases parseDeclarations (expand t.macros declarationTokens) with
  | none => rfl
  | some r =>
    obtain ⟨n, a, b⟩ := r
    simp only []
    rw [namespaceAlias_imported, namespaceBlock_imported]

theorem declarations_trace (t : TU) :
    (declarations t).trace
      = t.trace ++ [Directive.nsBlock "hboost", Directive.nsAlias "boost" "hboost"] := by
  unfold declarations
  cases parseDeclarations (expand t.macros declarationTokens) with
  | none => rfl
  | some r =>
    obtain ⟨n, a, b⟩ := r
    simp only []
    rw [namespaceAlias_trace, namespaceBlock_trace]

/-- Lines 11 to 14 raise no redefinition diagnostic. -/
theorem declarations_diags (t : TU) :
    ∃ extra, (declarations t).diags = t.diags ++ extra ∧
      ∀ d ∈ extra, ∀ m, d ≠ Diag.macroRedefined m := by
  unfold declarations
  cases parseDeclarations (expand t.macros declarationTokens) with
  | none => exact ⟨[], by simp, by simp⟩
  | some r =>
    obtain ⟨n, a, b⟩ := r
    simp only []
    obtain ⟨e1, he1, hk1⟩ := namespaceBlock_diags n
      { t with trace := t.trace
          ++ [Directive.nsBlock "hboost", Directive.nsAlias "boost" "hboost"] }
    obtain ⟨e2, he2, hk2⟩ := namespaceAlias_diags a b (namespaceBlock n
      { t with trace := t.trace
          ++ [Directive.nsBlock "hboost", Directive.nsAlias "boost" "hboost"] })
    refine ⟨e1 ++ e2, ?_, ?_⟩
    · rw [he2, he1, List.append_assoc]
    · intro d hd m hm
      rcases List.mem_append.mp hd with hx | hx
      · have := hk1 d hx
        rw [hm] at this
        simp at this
      · rcases hk2 d hx with hy | ⟨hy, _⟩
        · rw [hm] at hy; simp at hy
        · rw [hm] at hy; simp at hy

/-! ## Lines 11 to 17 -/

theorem sourceNames_eq :
    sourceNames = ["BOOST_PYTHON_MODULE", "BOOST_PYTHON_FUNCTION_OVERLOADS",
      "BOOST_PYTHON_MEMBER_FUNCTION_OVERLOADS"] := by
  decide

theorem shimMacros_eq :
    shimMacros =
      [("BOOST_PYTHON_MODULE", objectLike ["HBOOST_PYTHON_MODULE"]),
       ("BOOST_PYTHON_FUNCTION_OVERLOADS", objectLike ["HBOOST_PYTHON_FUNCTION_OVERLOADS"]),
       ("BOOST_PYTHON_MEMBER_FUNCTION_OVERLOADS",
          objectLike ["HBOOST_PYTHON_MEMBER_FUNCTION_OVERLOADS"])] := by
  decide

theorem shimDecls_trace (t : TU) :
    (shimDecls t).trace = t.trace ++
      [Directive.nsBlock "hboost", Directive.nsAlias "boost" "hboost",
       Directive.defineMacro "BOOST_PYTHON_MODULE" (objectLike ["HBOOST_PYTHON_MODULE"]),
       Directive.defineMacro "BOOST_PYTHON_FUNCTION_OVERLOADS"
         (objectLike ["HBOOST_PYTHON_FUNCTION_OVERLOADS"]),
       Directive.defineMacro "BOOST_PYTHON_MEMBER_FUNCTION_OVERLOADS"
         (objectLike ["HBOOST_PYTHON_MEMBER_FUNCTION_OVERLOADS"])] := by
  simp [shimDecls, define_trace, declarations_trace]

theorem shimDecls_namespaces (t : TU) :
    (shimDecls t).namespaces = (declarations t).namespaces := by
  simp [shimDecls, define_namespaces]

theorem shimDecls_aliases (t : TU) :
    (shimDecls t).aliases = (declarations t).aliases := by
  simp [shimDecls, define_aliases]

theorem shimDecls_others (t : TU) : (shimDecls t).others = t.others := by
  simp [shimDecls, define_others, declarations_others]

theorem shimDecls_imported (t : TU) : (shimDecls t).imported = t.imported := by
  simp [shimDecls, define_imported, declarations_imported]

/-- Lines 11 to 17 leave the definition of every name other than the three alone. -/
theorem shimDecls_find_other (t : TU) (n : String) (hn : n ∉ sourceNames) :
    Table.find n (shimDecls t).macros = Table.find n t.macros := by
  rw [sourceNames_eq] at hn
  simp only [List.mem_cons, List.mem_singleton, not_or, List.mem_nil_iff, or_false] at hn
  obtain ⟨h1, h2, h3⟩ := hn
  unfold shimDecls
  simp only [Function.comp, define_find_ne _ _ (Ne.symm h3), define_find_ne _ _ (Ne.symm h2),
    define_find_ne _ _ (Ne.symm h1), declarations_macros]

/-- After lines 11 to 17 each of the three names has the definition of its line. -/
theorem shimDecls_find_source (t : TU) :
    Table.find "BOOST_PYTHON_MODULE" (shimDecls t).macros
        = some (objectLike ["HBOOST_PYTHON_MODULE"]) ∧
    Table.find "BOOST_PYTHON_FUNCTION_OVERLOADS" (shimDecls t).macros
        = some (objectLike ["HBOOST_PYTHON_FUNCTION_OVERLOADS"]) ∧
    Table.find "BOOST_PYTHON_MEMBER_FUNCTION_OVERLOADS" (shimDecls t).macros
        = some (objectLike ["HBOOST_PYTHON_MEMBER_FUNCTION_OVERLOADS"]) := by
  unfold shimDecls
  refine ⟨?_, ?_, ?_⟩
  · rw [define_find_ne _ _ (by decide), define_find_ne _ _ (by decide), define_find_self]
  · rw [define_find_ne _ _ (by decide), define_find_self]
  · rw [define_find_self]

/-- Lines 11 to 17 never remove a definition. -/
theorem shimDecls_isDefined (t : TU) (n : String) (h : isDefined n t = true) :
    isDefined n (shimDecls t) = true := by
  unfold shimDecls
  apply define_isDefined
  apply define_isDefined
  apply define_isDefined
  unfold isDefined at *
  rw [declarations_macros]
  exact h

/-- Lines 11 to 17 do not change whether lines 11 to 14 are replaced. -/
theorem unreplaced_shimDecls (t : TU) : unreplaced (shimDecls t) = unreplaced t := by
  apply unreplaced_congr
  intro tok htok
  apply shimDecls_find_other
  revert tok
  decide

/-- The diagnostics of lines 11 to 17: those of the two declarations, none of
which is a redefinition, and then one redefinition diagnostic for each of the
three names whose definition in force differs. -/
theorem shimDecls_diags (t : TU) :
    ∃ e, (∀ d ∈ e, ∀ m, d ≠ Diag.macroRedefined m) ∧
      (declarations t).diags = t.diags ++ e ∧
      (shimDecls t).diags = t.diags ++ e
        ++ redefinitionDiag "BOOST_PYTHON_MODULE" (objectLike ["HBOOST_PYTHON_MODULE"]) t.macros
        ++ redefinitionDiag "BOOST_PYTHON_FUNCTION_OVERLOADS"
            (objectLike ["HBOOST_PYTHON_FUNCTION_OVERLOADS"]) t.macros
        ++ redefinitionDiag "BOOST_PYTHON_MEMBER_FUNCTION_OVERLOADS"
            (objectLike ["HBOOST_PYTHON_MEMBER_FUNCTION_OVERLOADS"]) t.macros := by
  obtain ⟨e, he, hk⟩ := declarations_diags t
  refine ⟨e, hk, he, ?_⟩
  have h12 : ("BOOST_PYTHON_MODULE" : String) ≠ "BOOST_PYTHON_FUNCTION_OVERLOADS" := by decide
  have h13 : ("BOOST_PYTHON_MODULE" : String) ≠ "BOOST_PYTHON_MEMBER_FUNCTION_OVERLOADS" := by
    decide
  have h23 : ("BOOST_PYTHON_FUNCTION_OVERLOADS" : String)
      ≠ "BOOST_PYTHON_MEMBER_FUNCTION_OVERLOADS" := by decide
  unfold shimDecls
  rw [define_diags_eq, define_diags_eq, define_diags_eq, he]
  unfold redefinitionDiag
  rw [define_find_ne _ _ h23, define_find_ne _ _ h13, define_find_ne _ _ h12, declarations_macros]

theorem shimInclude_trace (pxr : TU → TU) (t : TU) :
    (shimInclude pxr t).trace
      = t.trace ++ [Directive.includeFile "pxr/base/tf/preprocessorUtilsLite.h"] := rfl

theorem shimInclude_macros (pxr : TU → TU) (t : TU) :
    (shimInclude pxr t).macros = (pxr t).macros := rfl

theorem header_active (pxr : TU → TU) (t : TU) (h : isDefined OPENDCC_HOUDINI_SUPPORT t = true) :
    houdini_compatibility_pch pxr t = shimDecls (shimInclude pxr t) := by
  simp [houdini_compatibility_pch, shimBody, h]

theorem header_inactive (pxr : TU → TU) (t : TU)
    (h : isDefined OPENDCC_HOUDINI_SUPPORT t = false) :
    houdini_compatibility_pch pxr t = t := by
  simp [houdini_compatibility_pch, h]

/-! ## Changing the value of the flag -/

theorem isDefined_setFlag (d : MacroDef) (t : TU) :
    isDefined OPENDCC_HOUDINI_SUPPORT (setFlag d t) = true := by
  simp [isDefined, setFlag, Table.find_put_self]

theorem setFlag_eq_self {d : MacroDef} {t : TU}
    (h : Table.find OPENDCC_HOUDINI_SUPPORT t.macros = some d) : setFlag d t = t := by
  unfold setFlag
  rw [Table.put_eq_self h]

theorem define_setFlag {n : String} (hn : n ≠ OPENDCC_HOUDINI_SUPPORT) (x d : MacroDef) (t : TU)
    (hF : isDefined OPENDCC_HOUDINI_SUPPORT t = true) :
    define n d (setFlag x t) = setFlag x (define n d t) := by
  have hfind : Table.find n (Table.put OPENDCC_HOUDINI_SUPPORT x t.macros) = Table.find n t.macros :=
    Table.find_put_ne _ _ (Ne.symm hn)
  have hput : Table.put n d (Table.put OPENDCC_HOUDINI_SUPPORT x t.macros)
      = Table.put OPENDCC_HOUDINI_SUPPORT x (Table.put n d t.macros) :=
    Table.put_comm x d (Ne.symm hn) hF
  unfold define setFlag
  simp only [hfind]
  cases h : Table.find n t.macros with
  | none => simp [hput]
  | some old => by_cases hd : old = d <;> simp [hd, hput]

theorem namespaceBlock_setFlag (n : String) (x : MacroDef) (t : TU) :
    namespaceBlock n (setFlag x t) = setFlag x (namespaceBlock n t) := by
  unfold namespaceBlock
  by_cases h1 : (Table.find n t.aliases).isSome = true ∨ n ∈ t.others
  · simp [setFlag, h1]
  · by_cases h2 : n ∈ t.namespaces
    · simp [setFlag, h1, h2]
    · simp [setFlag, h1, h2]

theorem namespaceAlias_setFlag (a b : String) (x : MacroDef) (t : TU) :
    namespaceAlias a b (setFlag x t) = setFlag x (namespaceAlias a b t) := by
  have hr : resolveNamespace (setFlag x t) b = resolveNamespace t b := rfl
  unfold namespaceAlias
  rw [hr]
  cases hres : resolveNamespace t b with
  | none => simp [setFlag]
  | some ns =>
    by_cases ho : a ∈ t.others
    · simp [setFlag, ho]
    · by_cases ha : a ∈ t.namespaces
      · by_cases he : ns = a <;> simp [setFlag, ho, ha, he]
      · cases hal : Table.find a t.aliases with
        | none => simp [setFlag, ho, ha, hal]
        | some cur => by_cases hc : cur = ns <;> simp [setFlag, ho, ha, hal, hc]

theorem unreplaced_setFlag (x : MacroDef) (t : TU) :
    unreplaced (setFlag x t) = unreplaced t := by
  apply unreplaced_congr
  intro tok htok
  have hne : OPENDCC_HOUDINI_SUPPORT ≠ tok := by
    revert tok
    decide
  exact Table.find_put_ne _ _ hne

theorem declarations_setFlag (x : MacroDef) (t : TU) (hlit : unreplaced t = true) :
    declarations (setFlag x t) = setFlag x (declarations t) := by
  rw [declarations_unreplaced t hlit,
    declarations_unreplaced (setFlag x t) (by rw [unreplaced_setFlag]; exact hlit),
    ← namespaceAlias_setFlag, ← namespaceBlock_setFlag]
  rfl

theorem shimDecls_setFlag (x : MacroDef) (t : TU)
    (hF : isDefined OPENDCC_HOUDINI_SUPPORT t = true) (hlit : unreplaced t = true) :
    shimDecls (setFlag x t) = setFlag x (shimDecls t) := by
  have h0 : isDefined OPENDCC_HOUDINI_SUPPORT (declarations t) = true := by
    unfold isDefined at *
    rw [declarations_macros]
    exact hF
  have h1 := define_isDefined "BOOST_PYTHON_MODULE" (objectLike ["HBOOST_PYTHON_MODULE"]) _ h0
  have h2 := define_isDefined "BOOST_PYTHON_FUNCTION_OVERLOADS"
    (objectLike ["HBOOST_PYTHON_FUNCTION_OVERLOADS"]) _ h1
  unfold shimDecls
  rw [declarations_setFlag x t hlit, define_setFlag (by decide) _ _ _ h0,
    define_setFlag (by decide) _ _ _ h1, define_setFlag (by decide) _ _ _ h2]

/-- A content that does not consult the value of the flag keeps the flag defined. -/
theorem flagBlind_keeps_flag (pxr : TU → TU)
    (hpxr : ∀ u x, isDefined OPENDCC_HOUDINI_SUPPORT u = true → pxr (setFlag x u) = setFlag x (pxr u))
    (t : TU) (hF : isDefined OPENDCC_HOUDINI_SUPPORT t = true) :
    isDefined OPENDCC_HOUDINI_SUPPORT (pxr t) = true := by
  unfold isDefined at hF
  obtain ⟨d, hd⟩ := Option.isSome_iff_exists.mp hF
  have h1 := hpxr t d (by unfold isDefined; simp [hd])
  rw [setFlag_eq_self hd] at h1
  rw [h1]
  exact isDefined_setFlag d (pxr t)

theorem shimBody_setFlag (pxr : TU → TU)
    (hpxr : ∀ u x, isDefined OPENDCC_HOUDINI_SUPPORT u = true → pxr (setFlag x u) = setFlag x (pxr u))
    (x : MacroDef) (t : TU) (hF : isDefined OPENDCC_HOUDINI_SUPPORT t = true)
    (hlit : unreplaced (pxr t) = true) :
    shimBody pxr (setFlag x t) = setFlag x (shimBody pxr t) := by
  have hinc : shimInclude pxr (setFlag x t) = setFlag x (shimInclude pxr t) := by
    unfold shimInclude includeHeader
    rw [hpxr t x hF]
    rfl
  have hF2 : isDefined OPENDCC_HOUDINI_SUPPORT (shimInclude pxr t) = true := by
    have := flagBlind_keeps_flag pxr hpxr t hF
    unfold isDefined at *
    rw [shimInclude_macros]
    exact this
  unfold shimBody
  rw [hinc, shimDecls_setFlag x _ hF2 hlit]

theorem guardedUtilityHeader_setFlag (u : TU) (x : MacroDef)
    (hF : isDefined OPENDCC_HOUDINI_SUPPORT u = true) :
    guardedUtilityHeader (setFlag x u) = setFlag x (guardedUtilityHeader u) := by
  have hg : isDefined "PXR_BASE_TF_PREPROCESSOR_UTILS_LITE_H" (setFlag x u)
      = isDefined "PXR_BASE_TF_PREPROCESSOR_UTILS_LITE_H" u := by
    unfold isDefined setFlag
    simp only []
    rw [Table.find_put_ne _ _ (by decide)]
  unfold guardedUtilityHeader
  rw [hg]
  split
  · rfl
  · have h1 := define_isDefined "PXR_BASE_TF_PREPROCESSOR_UTILS_LITE_H" (objectLike []) u hF
    rw [define_setFlag (by decide) _ _ _ hF, define_setFlag (by decide) _ _ _ h1]

/-! ## Processing lines 11 to 17 a second time -/

theorem shimDecls_settled (t : TU) (hlit : unreplaced t = true) : Settled (shimDecls t) := by
  obtain ⟨h1, h2, h3⟩ := shimDecls_find_source t
  have hn : (shimDecls t).namespaces = (declarations t).namespaces := shimDecls_namespaces t
  have ha : (shimDecls t).aliases = (declarations t).aliases := shimDecls_aliases t
  have ho : (shimDecls t).others = (declarations t).others := by
    rw [shimDecls_others, declarations_others]
  have hi : (shimDecls t).imported = (declarations t).imported := by
    rw [shimDecls_imported, declarations_imported]
  refine ⟨?_, ?_, h1, h2, h3⟩
  · rw [ha, ho, hn, declarations_unreplaced t hlit]
    rcases namespaceBlock_declared "hboost"
      { t with trace := t.trace
          ++ [Directive.nsBlock "hboost", Directive.nsAlias "boost" "hboost"] } with h | h | h
    · left
      exact namespaceAlias_keeps_alias _ _ _ _ h
    · right; left
      rw [namespaceAlias_others]
      exact h
    · right; right
      rw [namespaceAlias_namespaces]
      exact h
  · rw [resolveNamespace_congr hn ha hi, ha, ho, hn, declarations_unreplaced t hlit]
    exact namespaceAlias_declared _ _ _

/-- On a unit where they are settled, lines 11 to 17 change no table and raise
no redefinition diagnostic. -/
theorem shimDecls_of_settled (t : TU) (h : Settled t) (hlit : unreplaced t = true) :
    (shimDecls t).macros = t.macros ∧ (shimDecls t).namespaces = t.namespaces ∧
    (shimDecls t).aliases = t.aliases ∧
    ∃ extra, (shimDecls t).diags = t.diags ++ extra ∧ ∀ m, Diag.macroRedefined m ∉ extra := by
  have hns : (declarations t).namespaces = t.namespaces := by
    rw [declarations_unreplaced t hlit, namespaceAlias_namespaces]
    exact namespaceBlock_namespaces_of_declared (t := { t with trace := t.trace
      ++ [Directive.nsBlock "hboost", Directive.nsAlias "boost" "hboost"] }) h.hboost
  have hal : (declarations t).aliases = t.aliases := by
    rw [declarations_unreplaced t hlit]
    have hb : (namespaceBlock "hboost" { t with trace := t.trace
        ++ [Directive.nsBlock "hboost", Directive.nsAlias "boost" "hboost"] }).namespaces
        = t.namespaces :=
      namespaceBlock_namespaces_of_declared (t := { t with trace := t.trace
        ++ [Directive.nsBlock "hboost", Directive.nsAlias "boost" "hboost"] }) h.hboost
    rw [namespaceAlias_aliases_of_declared, namespaceBlock_aliases]
    rw [resolveNamespace_congr (u := t) hb (namespaceBlock_aliases _ _)
      (namespaceBlock_imported _ _), namespaceBlock_others, hb, namespaceBlock_aliases]
    exact h.boost
  have hm : (declarations t).macros = t.macros := declarations_macros t
  have hmac : (shimDecls t).macros = t.macros := by
    have e3 := define_same (t := declarations t) (hm.symm ▸ h.m1)
    have e4 := define_same
      (t := define "BOOST_PYTHON_MODULE" (objectLike ["HBOOST_PYTHON_MODULE"]) (declarations t))
      (d := objectLike ["HBOOST_PYTHON_FUNCTION_OVERLOADS"])
      (by rw [e3]; exact hm.symm ▸ h.m2)
    have e5 := define_same
      (t := define "BOOST_PYTHON_FUNCTION_OVERLOADS" (objectLike ["HBOOST_PYTHON_FUNCTION_OVERLOADS"])
        (define "BOOST_PYTHON_MODULE" (objectLike ["HBOOST_PYTHON_MODULE"]) (declarations t)))
      (d := objectLike ["HBOOST_PYTHON_MEMBER_FUNCTION_OVERLOADS"])
      (by rw [e4, e3]; exact hm.symm ▸ h.m3)
    have hs : shimDecls t = define "BOOST_PYTHON_MEMBER_FUNCTION_OVERLOADS"
        (objectLike ["HBOOST_PYTHON_MEMBER_FUNCTION_OVERLOADS"])
        (define "BOOST_PYTHON_FUNCTION_OVERLOADS" (objectLike ["HBOOST_PYTHON_FUNCTION_OVERLOADS"])
          (define "BOOST_PYTHON_MODULE" (objectLike ["HBOOST_PYTHON_MODULE"])
            (declarations t))) := rfl
    rw [hs, e5, e4, e3]
    exact hm
  obtain ⟨e, hk, _, hd⟩ := shimDecls_diags t
  refine ⟨hmac, ?_, ?_, e, ?_, ?_⟩
  · rw [shimDecls_namespaces]; exact hns
  · rw [shimDecls_aliases]; exact hal
  · rw [hd]
    simp [redefinitionDiag, h.m1, h.m2, h.m3]
  · intro m hmem
    exact hk _ hmem m rfl

/-! ## Expansion under the three definitions -/

theorem find_shimMacros_source (tok : Token) (h : tok ∈ sourceNames) :
    Table.find tok shimMacros = some (objectLike ["H" ++ tok]) := by
  rw [sourceNames_eq] at h
  simp only [List.mem_cons, List.mem_singleton, List.mem_nil_iff, or_false] at h
  rcases h with h | h | h <;> subst h <;> decide

theorem find_shimMacros_other (tok : Token) (h : tok ∉ sourceNames) :
    Table.find tok shimMacros = none := by
  rw [sourceNames_eq] at h
  simp only [List.mem_cons, List.mem_singleton, not_or, List.mem_nil_iff, or_false] at h
  obtain ⟨h1, h2, h3⟩ := h
  rw [shimMacros_eq]
  simp [Table.find, Ne.symm h1, Ne.symm h2, Ne.symm h3]

theorem prefixed_not_source (tok : Token) (h : tok ∈ sourceNames) : "H" ++ tok ∉ sourceNames := by
  rw [sourceNames_eq] at h
  simp only [List.mem_cons, List.mem_singleton, List.mem_nil_iff, or_false] at h
  rcases h with h | h | h <;> subst h <;> decide

/-- Without rescanning, a token that is one of the three names becomes the name
with H in front, and every other token stays. -/
theorem rewriteOnce_shim (tok : Token) :
    rewriteOnce shimMacros tok = [if tok ∈ sourceNames then "H" ++ tok else tok] := by
  unfold rewriteOnce
  by_cases h : tok ∈ sourceNames
  · rw [find_shimMacros_source tok h]
    simp [h, objectLike]
  · rw [find_shimMacros_other tok h]
    simp [h]

/-- Rescanning finds nothing more to replace: whatever depth is allowed beyond
the first step, the result is that of the single step. -/
theorem expandToken_shim (fuel : Nat) (tok : Token) :
    expandToken shimMacros (fuel + 1) [] tok = rewriteOnce shimMacros tok := by
  rw [rewriteOnce_shim]
  by_cases h : tok ∈ sourceNames
  · have hfind := find_shimMacros_source tok h
    have hnone := find_shimMacros_other _ (prefixed_not_source tok h)
    cases fuel with
    | zero => simp [expandToken, hfind, objectLike, h]
    | succ n =>
      by_cases hh : "H" ++ tok = tok
      · simp [expandToken, hfind, objectLike, h, hh]
      · simp [expandToken, hfind, objectLike, h, hh, hnone]
  · simp [expandToken, find_shimMacros_other tok h, h]

theorem expandFuel_shim (fuel : Nat) (ts : List Token) :
    expandFuel shimMacros (fuel + 1) ts = ts.flatMap (rewriteOnce shimMacros) := by
  unfold expandFuel
  congr 1
  funext tok
  exact expandToken_shim fuel tok

theorem expand_shim (ts : List Token) :
    expand shimMacros ts = ts.map (fun a => if a ∈ sourceNames then "H" ++ a else a) := by
  unfold expand
  rw [expandFuel_shim]
  induction ts with
  | nil => rfl
  | cons a rest ih => simp [List.flatMap_cons, rewriteOnce_shim, ih]

theorem expand_shim_idem (ts : List Token) :
    expand shimMacros (expand shimMacros ts) = expand shimMacros ts := by
  rw [expand_shim, expand_shim, List.map_map]
  apply List.map_congr_left
  intro a _
  by_cases h : a ∈ sourceNames
  · simp [h, prefixed_not_source a h]
  · simp [h]

/-! ## The sample content of the pxr header -/

theorem guardedUtilityHeader_guard (u : TU) :
    isDefined "PXR_BASE_TF_PREPROCESSOR_UTILS_LITE_H" (guardedUtilityHeader u) = true := by
  unfold guardedUtilityHeader
  by_cases h : isDefined "PXR_BASE_TF_PREPROCESSOR_UTILS_LITE_H" u = true
  · simp [h]
  · rw [if_neg h]
    apply define_isDefined
    unfold isDefined
    simp [define_find_self]

theorem guardedUtilityHeader_again (u : TU)
    (h : isDefined "PXR_BASE_TF_PREPROCESSOR_UTILS_LITE_H" u = true) :
    guardedUtilityHeader u = u := by
  simp [guardedUtilityHeader, h]

/-- After the block of a name that is no entity of another kind and is not
found in another namespace, the name denotes a namespace. -/
theorem resolve_after_block (n : String) (t : TU) (ho : n ∉ t.others)
    (hi : Table.find n t.imported = none) :
    (resolveNamespace (namespaceBlock n t) n).isSome = true := by
  unfold resolveNamespace declaredNamespace
  rw [namespaceBlock_aliases, namespaceBlock_imported, hi]
  cases hal : Table.find n t.aliases with
  | some v => simp
  | none =>
    rcases namespaceBlock_declared n t with h | h | h
    · rw [namespaceBlock_aliases, hal] at h
      simp at h
    · rw [namespaceBlock_others] at h
      exact absurd h ho
    · simp [h]

/-- Unreplaced, with hboost free to be a namespace, lines 11 to 14 raise nothing
but conflicts on hboost and boost. -/
theorem declarations_diags_kinds (t : TU) (hlit : unreplaced t = true)
    (ho : "hboost" ∉ t.others) (hi : Table.find "hboost" t.imported = none) :
    ∃ e, (declarations t).diags = t.diags ++ e ∧
      ∀ d ∈ e, d = Diag.namespaceConflict "hboost" ∨ d = Diag.namespaceConflict "boost" := by
  rw [declarations_unreplaced t hlit]
  obtain ⟨e1, he1, hk1⟩ := namespaceBlock_diags "hboost"
    { t with trace := t.trace ++ [Directive.nsBlock "hboost", Directive.nsAlias "boost" "hboost"] }
  obtain ⟨e2, he2, hk2⟩ := namespaceAlias_diags "boost" "hboost" (namespaceBlock "hboost"
    { t with trace := t.trace ++ [Directive.nsBlock "hboost", Directive.nsAlias "boost" "hboost"] })
  have hres := resolve_after_block "hboost"
    { t with trace := t.trace ++ [Directive.nsBlock "hboost", Directive.nsAlias "boost" "hboost"] }
    ho hi
  refine ⟨e1 ++ e2, ?_, ?_⟩
  · rw [he2, he1, List.append_assoc]
  · intro d hd
    rcases List.mem_append.mp hd with hx | hx
    · left; exact hk1 d hx
    · rcases hk2 d hx with hy | ⟨_, hy⟩
      · right; exact hy
      · rw [hy] at hres
        simp at hres

theorem resolve_after_shimDecls (u : TU) (hlit : unreplaced u = true)
    (hbn : "boost" ∉ u.namespaces) (hbo : "boost" ∉ u.others)
    (hba : Table.find "boost" u.aliases = none ∨ Table.find "boost" u.aliases = some "hboost")
    (hbi : Table.find "boost" u.imported = none)
    (hha : Table.find "hboost" u.aliases = none) (hho : "hboost" ∉ u.others)
    (hhi : Table.find "hboost" u.imported = none) :
    resolveNamespace (shimDecls u) "boost" = some "hboost" ∧
    resolveNamespace (shimDecls u) "hboost" = some "hboost" := by
  have hne : ("boost" : String) ≠ "hboost" := by decide
  have hblock : ∃ ns, namespaceBlock "hboost" { u with trace := u.trace
        ++ [Directive.nsBlock "hboost", Directive.nsAlias "boost" "hboost"] }
      = { u with namespaces := ns, trace := u.trace
        ++ [Directive.nsBlock "hboost", Directive.nsAlias "boost" "hboost"] } ∧
      "hboost" ∈ ns ∧ "boost" ∉ ns := by
    unfold namespaceBlock
    by_cases hn : "hboost" ∈ u.namespaces
    · exact ⟨u.namespaces, by simp [hha, hho, hn], hn, hbn⟩
    · exact ⟨u.namespaces ++ ["hboost"], by simp [hha, hho, hn], by simp, by simp [hbn, hne]⟩
  obtain ⟨ns, hB, hh1, hb1⟩ := hblock
  have hres : resolveNamespace { u with namespaces := ns, trace := u.trace
        ++ [Directive.nsBlock "hboost", Directive.nsAlias "boost" "hboost"] } "hboost"
      = some "hboost" := by
    unfold resolveNamespace declaredNamespace
    simp [hha, hhi, hh1]
  have hdecl : ∃ al, declarations u = { u with namespaces := ns, aliases := al, trace := u.trace
        ++ [Directive.nsBlock "hboost", Directive.nsAlias "boost" "hboost"] } ∧
      Table.find "boost" al = some "hboost" ∧ Table.find "hboost" al = none := by
    rw [declarations_unreplaced u hlit, hB]
    unfold namespaceAlias
    rw [hres]
    rcases hba with hba | hba
    · refine ⟨u.aliases ++ [("boost", "hboost")], by simp [hbo, hb1, hba], ?_, ?_⟩
      · rw [Table.find_append_none _ _ _ hba]
        simp [Table.find]
      · rw [Table.find_append_none _ _ _ hha]
        simp [Table.find, hne]
    · exact ⟨u.aliases, by simp [hbo, hb1, hba], hba, hha⟩
  obtain ⟨al, hD, hf1, hf2⟩ := hdecl
  have hn : (shimDecls u).namespaces = ns := by rw [shimDecls_namespaces, hD]
  have ha : (shimDecls u).aliases = al := by rw [shimDecls_aliases, hD]
  have hi : (shimDecls u).imported = u.imported := shimDecls_imported u
  unfold resolveNamespace declaredNamespace
  rw [hn, ha, hi, hf1, hf2, hbi, hhi]
  simp [hh1]

/-! ## The claims -/

/-- C1: when OPENDCC_HOUDINI_SUPPORT is not defined the header contributes nothing.
Whatever the content of the pxr header would be, the state of the translation
unit after the header equals the state before it: no definition is made, no
file is included, no namespace or alias is declared, no directive is carried
out and no diagnostic is raised. -/
theorem header_inert_when_flag_undefined (pxr : TU → TU) (t : TU)
    (h : isDefined OPENDCC_HOUDINI_SUPPORT t = false) :
    houdini_compatibility_pch pxr t = t :=
  header_inactive pxr t h

/-- A unit without the flag, with the sample pxr content: nothing changes. -/
theorem header_inert_when_flag_undefined_witness :
    isDefined OPENDCC_HOUDINI_SUPPORT plainUnit = false ∧
    houdini_compatibility_pch guardedUtilityHeader plainUnit = plainUnit :=
  ⟨by decide, header_inert_when_flag_undefined guardedUtilityHeader plainUnit (by decide)⟩

/-- C2, as stated, fails on the call site BOOST_PYTHON_MODULE(BOOST_PYTHON_MODULE):
under the table left by the header the argument is rewritten as well, so the
result is not HBOOST_PYTHON_MODULE applied to the unchanged argument. -/
theorem call_site_argument_rewritten :
    expand (houdini_compatibility_pch guardedUtilityHeader flagOnly).macros
        (callSite "BOOST_PYTHON_MODULE" ["BOOST_PYTHON_MODULE"])
      = callSite "HBOOST_PYTHON_MODULE" ["HBOOST_PYTHON_MODULE"] ∧
    expand shimMacros (callSite "BOOST_PYTHON_MODULE" ["BOOST_PYTHON_MODULE"])
      ≠ callSite "HBOOST_PYTHON_MODULE" ["BOOST_PYTHON_MODULE"] := by
  decide

/-- C2, amended: when the flag is defined, after the header each of the three
names is an object-like definition whose replacement list is the same name with
H in front, and the three definitions rewrite a call site NAME(args) to
HNAME(args2), where args2 has the tokens of args in the same number and order,
each token unchanged except that a token which is itself one of the three names
gets the H in front too.  Arguments that contain none of the three names are
unchanged. -/
theorem boost_python_names_rewritten (pxr : TU → TU) (t : TU) (name : Token) (args : List Token)
    (h : isDefined OPENDCC_HOUDINI_SUPPORT t = true) (hname : name ∈ sourceNames) :
    (Table.find "BOOST_PYTHON_MODULE" (houdini_compatibility_pch pxr t).macros
        = some (objectLike ["HBOOST_PYTHON_MODULE"]) ∧
     Table.find "BOOST_PYTHON_FUNCTION_OVERLOADS" (houdini_compatibility_pch pxr t).macros
        = some (objectLike ["HBOOST_PYTHON_FUNCTION_OVERLOADS"]) ∧
     Table.find "BOOST_PYTHON_MEMBER_FUNCTION_OVERLOADS" (houdini_compatibility_pch pxr t).macros
        = some (objectLike ["HBOOST_PYTHON_MEMBER_FUNCTION_OVERLOADS"])) ∧
    Table.find name (houdini_compatibility_pch pxr t).macros = some (objectLike ["H" ++ name]) ∧
    expand shimMacros [name] = ["H" ++ name] ∧
    expand shimMacros (callSite name args)
      = callSite ("H" ++ name) (args.map (fun a => if a ∈ sourceNames then "H" ++ a else a)) ∧
    ((∀ a ∈ args, a ∉ sourceNames) →
      expand shimMacros (callSite name args) = callSite ("H" ++ name) args) := by
  have hsrc := shimDecls_find_source (shimInclude pxr t)
  have hpar : ("(" : String) ∉ sourceNames ∧ (")" : String) ∉ sourceNames := by decide
  have hcall : expand shimMacros (callSite name args)
      = callSite ("H" ++ name) (args.map (fun a => if a ∈ sourceNames then "H" ++ a else a)) := by
    rw [expand_shim]
    simp [callSite, hname, hpar.1, hpar.2]
  rw [header_active pxr t h]
  refine ⟨hsrc, ?_, ?_, hcall, ?_⟩
  · have hn := hname
    rw [sourceNames_eq] at hn
    simp only [List.mem_cons, List.mem_singleton, List.mem_nil_iff, or_false] at hn
    rcases hn with hn | hn | hn <;> subst hn
    · exact hsrc.1
    · exact hsrc.2.1
    · exact hsrc.2.2
  · rw [expand_shim]
    simp [hname]
  · intro hargs
    rw [hcall]
    congr 1
    calc args.map (fun a => if a ∈ sourceNames then "H" ++ a else a)
        = args.map id := List.map_congr_left (fun a ha => by simp [hargs a ha])
      _ = args := List.map_id args

/-- A call site of the usual shape, whose arguments contain none of the three names. -/
theorem boost_python_names_rewritten_witness :
    isDefined OPENDCC_HOUDINI_SUPPORT flagOnly = true ∧
    "BOOST_PYTHON_FUNCTION_OVERLOADS" ∈ sourceNames ∧
    expand shimMacros
        (callSite "BOOST_PYTHON_FUNCTION_OVERLOADS" ["f_overloads", ",", "f", ",", "1", ",", "2"])
      = callSite ("H" ++ "BOOST_PYTHON_FUNCTION_OVERLOADS")
          ["f_overloads", ",", "f", ",", "1", ",", "2"] :=
  ⟨by decide, by decide,
   (boost_python_names_rewritten guardedUtilityHeader flagOnly "BOOST_PYTHON_FUNCTION_OVERLOADS"
      ["f_overloads", ",", "f", ",", "1", ",", "2"] (by decide) (by decide)).2.2.2.2 (by decide)⟩

/-- C3, as stated, fails.  On a unit that already declares a namespace boost of
its own the alias of line 14 is rejected, boost keeps denoting that namespace
and a lookup of boost::python is not a lookup of hboost::python.  On a unit
that declares a variable hboost the block of line 11 is rejected and the alias
finds no namespace hboost.  On a unit in which hboost is a definition for
vendor, boost becomes an alias of vendor. -/
theorem boost_does_not_always_resolve_to_hboost :
    isDefined OPENDCC_HOUDINI_SUPPORT withRealBoost = true ∧
    resolveNamespace (houdini_compatibility_pch guardedUtilityHeader withRealBoost) "boost"
      = some "boost" ∧
    resolveNamespace (houdini_compatibility_pch guardedUtilityHeader withRealBoost) "boost"
      ≠ some "hboost" ∧
    lookupQualified (houdini_compatibility_pch guardedUtilityHeader withRealBoost) "boost" "python"
      ≠ lookupQualified (houdini_compatibility_pch guardedUtilityHeader withRealBoost) "hboost"
          "python" ∧
    Diag.unknownNamespace "hboost"
      ∈ (houdini_compatibility_pch guardedUtilityHeader withHboostVariable).diags ∧
    resolveNamespace (houdini_compatibility_pch guardedUtilityHeader withHboostVariable) "boost"
      = none ∧
    resolveNamespace (houdini_compatibility_pch guardedUtilityHeader withBoostType) "boost"
      = none ∧
    Diag.unknownNamespace "hboost"
      ∈ (houdini_compatibility_pch guardedUtilityHeader withImportedHboost).diags ∧
    resolveNamespace (houdini_compatibility_pch guardedUtilityHeader withHboostDefined) "boost"
      = some "vendor" := by
  decide

/-- C3, amended.  The header is included at namespace scope with the flag defined,
and when lines 11 to 14 are reached none of their tokens (the identifiers
namespace, hboost, boost) has a preprocessor definition, hboost is not declared
in the scope as an entity of another kind and lookup does not find a namespace
hboost in another namespace.  Then lines 11 to 14 are the block of hboost
followed by the alias; the block comes first, so at the point of the alias
declaration hboost denotes a namespace even if nothing declared it before, and
the header raises no diagnostic for a name that is not a namespace.  If
moreover boost is not declared in the scope as a namespace of its own, as an
entity of another kind or as an alias of a namespace other than hboost, lookup
does not find a namespace boost in another namespace, and hboost is not itself
an alias, then right after the header boost denotes the namespace hboost and
the lookup of boost::x is the lookup of hboost::x. -/
theorem boost_resolves_to_hboost (pxr : TU → TU) (t : TU)
    (h : isDefined OPENDCC_HOUDINI_SUPPORT t = true)
    (hlit : unreplaced (pxr t) = true)
    (hho : "hboost" ∉ (pxr t).others)
    (hhi : Table.find "hboost" (pxr t).imported = none) :
    declarations (shimInclude pxr t)
      = namespaceAlias "boost" "hboost" (namespaceBlock "hboost"
          { shimInclude pxr t with trace := (shimInclude pxr t).trace
              ++ [Directive.nsBlock "hboost", Directive.nsAlias "boost" "hboost"] }) ∧
    (resolveNamespace (namespaceBlock "hboost"
          { shimInclude pxr t with trace := (shimInclude pxr t).trace
              ++ [Directive.nsBlock "hboost", Directive.nsAlias "boost" "hboost"] })
        "hboost").isSome = true ∧
    (∃ extra, (houdini_compatibility_pch pxr t).diags = (pxr t).diags ++ extra ∧
      ∀ n, Diag.unknownNamespace n ∉ extra) ∧
    ("boost" ∉ (pxr t).namespaces → "boost" ∉ (pxr t).others →
     (Table.find "boost" (pxr t).aliases = none ∨
        Table.find "boost" (pxr t).aliases = some "hboost") →
     Table.find "boost" (pxr t).imported = none →
     Table.find "hboost" (pxr t).aliases = none →
       resolveNamespace (houdini_compatibility_pch pxr t) "boost" = some "hboost" ∧
       resolveNamespace (houdini_compatibility_pch pxr t) "hboost" = some "hboost" ∧
       ∀ x, lookupQualified (houdini_compatibility_pch pxr t) "boost" x = some ("hboost", x) ∧
            lookupQualified (houdini_compatibility_pch pxr t) "boost" x
              = lookupQualified (houdini_compatibility_pch pxr t) "hboost" x) := by
  have hlit1 : unreplaced (shimInclude pxr t) = true := hlit
  rw [header_active pxr t h]
  refine ⟨declarations_unreplaced _ hlit1, resolve_after_block _ _ hho hhi, ?_, ?_⟩
  · obtain ⟨e, _, he, hd⟩ := shimDecls_diags (shimInclude pxr t)
    obtain ⟨e2, he2, hk2⟩ := declarations_diags_kinds (shimInclude pxr t) hlit1 hho hhi
    have hee : e = e2 := List.append_cancel_left (he.symm.trans he2)
    refine ⟨_, by rw [hd, List.append_assoc, List.append_assoc, List.append_assoc]; rfl, ?_⟩
    intro n hn
    rcases List.mem_append.mp hn with hx | hx
    · rw [hee] at hx
      rcases hk2 _ hx with hy | hy <;> simp at hy
    · rcases List.mem_append.mp hx with hy | hy
      · have := redefinitionDiag_mem hy
        simp at this
      · rcases List.mem_append.mp hy with hz | hz
        · have := redefinitionDiag_mem hz
          simp at this
        · have := redefinitionDiag_mem hz
          simp at this
  · intro hbn hbo hba hbi hha
    obtain ⟨r1, r2⟩ := resolve_after_shimDecls (shimInclude pxr t) hlit1 hbn hbo hba hbi hha
      hho hhi
    refine ⟨r1, r2, ?_⟩
    intro x
    unfold lookupQualified
    rw [r1, r2]
    simp

/-- A unit in which neither boost nor hboost is declared yet. -/
theorem boost_resolves_to_hboost_witness :
    isDefined OPENDCC_HOUDINI_SUPPORT flagOnly = true ∧
    unreplaced (guardedUtilityHeader flagOnly) = true ∧
    "hboost" ∉ (guardedUtilityHeader flagOnly).others ∧
    Table.find "hboost" (guardedUtilityHeader flagOnly).imported = none ∧
    "boost" ∉ (guardedUtilityHeader flagOnly).namespaces ∧
    Table.find "hboost" (guardedUtilityHeader flagOnly).aliases = none ∧
    resolveNamespace (houdini_compatibility_pch guardedUtilityHeader flagOnly) "boost"
      = some "hboost" :=
  ⟨by decide, by decide, by decide, by decide, by decide, by decide,
   ((boost_resolves_to_hboost guardedUtilityHeader flagOnly (by decide) (by decide) (by decide)
      (by decide)).2.2.2
      (by decide) (by decide) (by decide) (by decide) (by decide)).1⟩

/-- C4, as stated, fails on a unit in which hboost is a definition for the name
BOOST_PYTHON_MODULE.  The first inclusion declares a namespace of that name and
then defines the name; at the second inclusion line 11 is replaced further and
declares another namespace, so the namespaces after two inclusions are not
those after one. -/
theorem second_inclusion_declares_another_namespace :
    isDefined OPENDCC_HOUDINI_SUPPORT hboostToModule = true ∧
    isDefined OPENDCC_HOUDINI_SUPPORT
      (houdini_compatibility_pch guardedUtilityHeader hboostToModule) = true ∧
    (houdini_compatibility_pch guardedUtilityHeader hboostToModule).namespaces
      = ["BOOST_PYTHON_MODULE"] ∧
    (houdini_compatibility_pch guardedUtilityHeader
        (houdini_compatibility_pch guardedUtilityHeader hboostToModule)).namespaces
      = ["BOOST_PYTHON_MODULE", "HBOOST_PYTHON_MODULE"] ∧
    (houdini_compatibility_pch guardedUtilityHeader
        (houdini_compatibility_pch guardedUtilityHeader hboostToModule)).namespaces
      ≠ (houdini_compatibility_pch guardedUtilityHeader hboostToModule).namespaces := by
  decide

/-- C4, amended: with the flag defined at both inclusions, a pxr header that is
safe to include again (it has an include guard: some name is defined once it
has been processed, and it expands to nothing when that name is defined), and
none of the tokens of lines 11 to 14 (the identifiers namespace, hboost, boost)
having a preprocessor definition when those lines are first reached, including
the header a second time leaves the table of definitions, the namespaces and
the aliases exactly as the first inclusion left them, and whatever the second
inclusion adds to the diagnostics contains no redefinition diagnostic. -/
theorem double_inclusion_idempotent (pxr : TU → TU) (guard : String) (t : TU)
    (hg1 : ∀ u, isDefined guard (pxr u) = true)
    (hg2 : ∀ u, isDefined guard u = true → pxr u = u)
    (h1 : isDefined OPENDCC_HOUDINI_SUPPORT t = true)
    (h2 : isDefined OPENDCC_HOUDINI_SUPPORT (houdini_compatibility_pch pxr t) = true)
    (hlit : unreplaced (pxr t) = true) :
    (houdini_compatibility_pch pxr (houdini_compatibility_pch pxr t)).macros
      = (houdini_compatibility_pch pxr t).macros ∧
    (houdini_compatibility_pch pxr (houdini_compatibility_pch pxr t)).namespaces
      = (houdini_compatibility_pch pxr t).namespaces ∧
    (houdini_compatibility_pch pxr (houdini_compatibility_pch pxr t)).aliases
      = (houdini_compatibility_pch pxr t).aliases ∧
    ∃ extra, (houdini_compatibility_pch pxr (houdini_compatibility_pch pxr t)).diags
        = (houdini_compatibility_pch pxr t).diags ++ extra ∧
      ∀ m, Diag.macroRedefined m ∉ extra := by
  have hlit1 : unreplaced (shimInclude pxr t) = true := hlit
  rw [header_active pxr _ h2]
  have hset : Settled (houdini_compatibility_pch pxr t) := by
    rw [header_active pxr t h1]
    exact shimDecls_settled _ hlit1
  have hguard : isDefined guard (houdini_compatibility_pch pxr t) = true := by
    rw [header_active pxr t h1]
    apply shimDecls_isDefined
    exact hg1 t
  have hlit2 : unreplaced (houdini_compatibility_pch pxr t) = true := by
    rw [header_active pxr t h1, unreplaced_shimDecls]
    exact hlit1
  have hinc : shimInclude pxr (houdini_compatibility_pch pxr t)
      = { houdini_compatibility_pch pxr t with
          trace := (houdini_compatibility_pch pxr t).trace
            ++ [Directive.includeFile "pxr/base/tf/preprocessorUtilsLite.h"] } := by
    unfold shimInclude includeHeader
    rw [hg2 _ hguard]
  rw [hinc]
  exact shimDecls_of_settled _ ⟨hset.hboost, hset.boost, hset.m1, hset.m2, hset.m3⟩ hlit2

/-- Two inclusions in a unit where the first one had to override a definition. -/
theorem double_inclusion_idempotent_witness :
    isDefined OPENDCC_HOUDINI_SUPPORT withBoostPython = true ∧
    isDefined OPENDCC_HOUDINI_SUPPORT
      (houdini_compatibility_pch guardedUtilityHeader withBoostPython) = true ∧
    unreplaced (guardedUtilityHeader withBoostPython) = true ∧
    (houdini_compatibility_pch guardedUtilityHeader
        (houdini_compatibility_pch guardedUtilityHeader withBoostPython)).macros
      = (houdini_compatibility_pch guardedUtilityHeader withBoostPython).macros :=
  ⟨by decide, by decide, by decide,
   (double_inclusion_idempotent guardedUtilityHeader "PXR_BASE_TF_PREPROCESSOR_UTILS_LITE_H"
      withBoostPython guardedUtilityHeader_guard guardedUtilityHeader_again
      (by decide) (by decide) (by decide)).1⟩

/-- C7, as stated, fails on a unit in which hboost is a definition for the flag
itself: the replacement list given to the flag then reaches line 11, and the
namespace the header declares is named after the value of the flag.  With the
flag defined as a the header declares a, with the flag defined as b it
declares b. -/
theorem flag_value_reaches_declarations :
    (houdini_compatibility_pch guardedUtilityHeader
        (setFlag (objectLike ["a"]) hboostToFlag)).namespaces = ["a"] ∧
    (houdini_compatibility_pch guardedUtilityHeader
        (setFlag (objectLike ["b"]) hboostToFlag)).namespaces = ["b"] ∧
    houdini_compatibility_pch guardedUtilityHeader
        (setFlag (objectLike ["b"]) (setFlag (objectLike ["a"]) hboostToFlag))
      ≠ setFlag (objectLike ["b"])
          (houdini_compatibility_pch guardedUtilityHeader
            (setFlag (objectLike ["a"]) hboostToFlag)) := by
  decide

/-- C7, amended: activation depends only on whether the flag is defined.  The
header is inert exactly when the flag has no definition.  For every definition
given to the flag (any replacement list, any form) the header is active and
does what lines 9 to 17 do.  When none of the tokens of lines 11 to 14 (the
identifiers namespace, hboost, boost) has a preprocessor definition as those
lines are reached, and the pxr header is taken not to consult the flag, giving
the flag another definition changes nothing in the result except the entry of
the flag itself. -/
theorem activation_depends_on_definedness_only (pxr : TU → TU) (t : TU)
    (hpxr : ∀ u x, isDefined OPENDCC_HOUDINI_SUPPORT u = true →
      pxr (setFlag x u) = setFlag x (pxr u)) :
    (houdini_compatibility_pch pxr t = t ↔ isDefined OPENDCC_HOUDINI_SUPPORT t = false) ∧
    (∀ d, houdini_compatibility_pch pxr (setFlag d t) = shimBody pxr (setFlag d t)) ∧
    (∀ d1 d2, unreplaced (pxr (setFlag d1 t)) = true →
      houdini_compatibility_pch pxr (setFlag d2 (setFlag d1 t))
        = setFlag d2 (houdini_compatibility_pch pxr (setFlag d1 t))) := by
  refine ⟨⟨?_, header_inactive pxr t⟩, ?_, ?_⟩
  · intro heq
    by_contra hdef
    have hdef2 : isDefined OPENDCC_HOUDINI_SUPPORT t = true := by
      cases hb : isDefined OPENDCC_HOUDINI_SUPPORT t with
      | true => rfl
      | false => exact absurd hb hdef
    have htr := congrArg TU.trace heq
    rw [header_active pxr t hdef2, shimDecls_trace, shimInclude_trace] at htr
    have hlen := congrArg List.length htr
    simp at hlen
  · intro d
    rw [header_active pxr _ (isDefined_setFlag d t)]
    rfl
  · intro d1 d2 hlit
    rw [header_active pxr _ (isDefined_setFlag d2 _), header_active pxr _ (isDefined_setFlag d1 t)]
    exact shimBody_setFlag pxr hpxr d2 (setFlag d1 t) (isDefined_setFlag d1 t) hlit

/-- The flag defined as empty and then as 0, with the sample pxr content. -/
theorem activation_depends_on_definedness_only_witness :
    unreplaced (guardedUtilityHeader (setFlag (objectLike []) plainUnit)) = true ∧
    houdini_compatibility_pch guardedUtilityHeader
        (setFlag (objectLike ["0"]) (setFlag (objectLike []) plainUnit))
      = setFlag (objectLike ["0"])
          (houdini_compatibility_pch guardedUtilityHeader (setFlag (objectLike []) plainUnit)) :=
  ⟨by decide,
   (activation_depends_on_definedness_only guardedUtilityHeader plainUnit
      guardedUtilityHeader_setFlag).2.2 (objectLike []) (objectLike ["0"]) (by decide)⟩

/-- C9: the substitution of the header is idempotent and ends after one step.  The
three target names are disjoint from the three source names; the three source
names are distinct and so are their three replacement lists, so the mapping
from source to target is injective; each target is its source with H in front;
expanding an already expanded token sequence changes nothing; and expansion
with any depth of rescanning equals the single replacement step. -/
theorem shim_substitution_idempotent :
    List.Disjoint sourceNames targetNames ∧
    sourceNames.Nodup ∧ (shimMacros.map (fun e => e.2.body)).Nodup ∧
    targetNames = sourceNames.map (fun a => "H" ++ a) ∧
    (∀ ts, expand shimMacros (expand shimMacros ts) = expand shimMacros ts) ∧
    (∀ fuel ts, expandFuel shimMacros (fuel + 1) ts = ts.flatMap (rewriteOnce shimMacros)) ∧
    (∀ ts, expand shimMacros ts = ts.flatMap (rewriteOnce shimMacros)) := by
  refine ⟨?_, by decide, by decide, by decide, expand_shim_idem, expandFuel_shim, ?_⟩
  · intro a ha hb
    have h1 : targetNames = sourceNames.map (fun a => "H" ++ a) := by decide
    rw [h1, List.mem_map] at hb
    obtain ⟨b, hb1, hb2⟩ := hb
    exact prefixed_not_source b hb1 (hb2 ▸ ha)
  · intro ts
    exact expandFuel_shim _ ts

end OpenDCC
